import Mathlib

set_option maxRecDepth 8192

/-!
# Verification of the SmartClock Bluetooth framing protocol

Shallow embedding of `src/bluetooth_comm.py`: CRC-8 checksum, frame
encoder, stream reassembler (`_rx_loop` extraction loop), command
dispatch (`_handle`), TLV sensor-report decoder and the actuator-command
builder (`send_actuator`).

Conventions of the embedding:
* Python `bytes` values become `List Nat`; byte-range constraints
  (`< 256`) are carried as hypotheses where a property needs them.
* Python exceptions on the receive path are modelled by `Option`:
  a function returns `none` exactly where the Python code raises.
* `ValueError` raised by the `bytes(...)` constructor inside
  `_encode_frame` (when a value exceeds 255) makes the encoder return
  `none`; on success the encoder returns `some frame`.
* The reading `value` (Python `raw / 10.0`) is modelled as the exact
  rational `raw / 10`.
* The `while` loops are driven by explicit fuel equal to the buffer
  length, which strictly decreases on every iteration of the Python
  loop, so the fuel is never exhausted.
-/

namespace SmartClock

/-- `START_BYTE = 0x55` from the config block. -/
def START_BYTE : Nat := 0x55

/-- `CRC_POLY = 0x31` (Dallas/Maxim) from the config block. -/
def CRC_POLY : Nat := 0x31

/-- One iteration of the inner `for _ in range(8)` loop of `crc8`:
`crc = ((crc << 1) ^ poly) & 0xFF if (crc & 0x80) else (crc << 1) & 0xFF`. -/
def crcRound (crc : Nat) : Nat :=
  if crc &&& 0x80 ≠ 0 then ((crc <<< 1) ^^^ CRC_POLY) &&& 0xFF
  else (crc <<< 1) &&& 0xFF

/-- Processing of one input byte by `crc8`: `crc ^= b` followed by the
eight shift rounds. -/
def crcByte (crc b : Nat) : Nat := crcRound^[8] (crc ^^^ b)

/-- `crc8(data, poly=0x31, init=0)` from `bluetooth_comm.py`. -/
def crc8 (data : List Nat) : Nat := data.foldl crcByte 0

/-- A decoded sensor reading, as pushed onto the GUI queue by
`_decode_sensor_report` (the dict `{"sensor_id": ..., "value": ...}`). -/
structure Reading where
  sensor_id : String
  value : ℚ
  deriving DecidableEq, Repr

/-- `type_names = {0: "TEMP", 1: "HUM", 2: "PRESS"}` with
`.get(s_type, "GEN")`. -/
def typeName (code : Nat) : String :=
  if code = 0 then "TEMP" else if code = 1 then "HUM"
  else if code = 2 then "PRESS" else "GEN"

/-- Python `f"{node_id:02d}"`: decimal, left-padded with `0` to width 2. -/
def pad2 (n : Nat) : String :=
  if n < 10 then "0" ++ Nat.repr n else Nat.repr n

/-- One TLV entry turned into a reading:
`s_type, s_num = t_s >> 4, t_s & 0x0F`; `raw = (hi << 8) | lo`;
`value = raw / 10.0`; `sensor_id = f"{sensor_type}_{node_id:02d}_{s_num}"`. -/
def mkReading (node_id t_s hi lo : Nat) : Reading :=
  { sensor_id := typeName (t_s >>> 4) ++ "_" ++ pad2 node_id ++ "_"
      ++ Nat.repr (t_s &&& 0x0F)
  , value := (((hi <<< 8) ||| lo : Nat) : ℚ) / 10 }

/-- The `for _ in range(n_tlvs)` loop of `_decode_sensor_report`,
recursing on the remaining declared entry count.  The `age` byte at
`idx+3` is read by the Python slice but never used. -/
def decodeLoop (node_id : Nat) (data : List Nat) : Nat → Nat → List Reading
  | _, 0 => []
  | idx, n + 1 =>
    if data.length < idx + 4 then []
    else
      mkReading node_id (data.getD idx 0) (data.getD (idx + 1) 0)
          (data.getD (idx + 2) 0)
        :: decodeLoop node_id data (idx + 4) n

/-- `_decode_sensor_report(node_id, data)`: returns the readings pushed
onto the queue, in order.  `if not data: return`; `n_tlvs, idx = data[0], 1`. -/
def decode_sensor_report (node_id : Nat) (data : List Nat) : List Reading :=
  match data with
  | [] => []
  | n_tlvs :: rest => decodeLoop node_id (n_tlvs :: rest) 1 n_tlvs

/-- `_handle(payload)`: `cmd, node_id, rest = payload[0], payload[1],
payload[2:]` raises `IndexError` (modelled as `none`) when the payload
has fewer than two bytes; command `0x01` dispatches to the sensor-report
decoder, every other command is ignored. -/
def handle (payload : List Nat) : Option (List Reading) :=
  match payload with
  | cmd :: node_id :: rest =>
    some (if cmd = 0x01 then decode_sensor_report node_id rest else [])
  | _ => none

/-- The frame-extraction `while` loop of `_rx_loop`, with explicit fuel.
Returns the extracted frame bodies (`frame[2:-1]` of every CRC-valid
frame, in order) and the final reassembly buffer. -/
def rxGo (fuel : Nat) (buf : List Nat) : List (List Nat) × List Nat :=
  match fuel with
  | 0 => ([], buf)
  | fuel + 1 =>
    if buf.length < 5 then ([], buf)
    else if buf.getD 0 0 ≠ START_BYTE then rxGo fuel buf.tail
    else
      let length := buf.getD 1 0
      if buf.length < length + 3 then ([], buf)
      else
        let frame := buf.take (length + 3)
        let rest := buf.drop (length + 3)
        if crc8 (frame.drop 1 |>.dropLast) ≠ frame.getLast?.getD 0 then
          rxGo fuel rest
        else
          let r := rxGo fuel rest
          ((frame.drop 2 |>.dropLast) :: r.1, r.2)

/-- The extraction loop of `_rx_loop` run to completion on a buffer.
Every loop iteration removes at least one byte from the buffer, so
`buf.length` units of fuel always suffice. -/
def rxLoop (buf : List Nat) : List (List Nat) × List Nat :=
  rxGo buf.length buf

/-- Sequential dispatch of the extracted bodies through `_handle`;
`none` models the first `IndexError` escaping `_rx_loop`. -/
def handleAll : List (List Nat) → Option (List Reading)
  | [] => some []
  | b :: bs =>
    match handle b with
    | none => none
    | some r =>
      match handleAll bs with
      | none => none
      | some rs => some (r ++ rs)

/-- One `_rx_loop` pass over a pre-existing buffer extended with newly
read bytes: the readings produced (or `none` if the receive path
raises) together with the final reassembly buffer. -/
def feed (buf new : List Nat) : Option (List Reading) × List Nat :=
  (handleAll (rxLoop (buf ++ new)).1, (rxLoop (buf ++ new)).2)

/-- The frame built by `_encode_frame` when the `bytes` constructor does
not raise: `body = bytes([cmd & 0xFF, node_id & 0xFF]) + payload`;
`frame = bytes([START_BYTE, len(body)]) + body`; `crc = crc8(frame[1:])`. -/
def mkFrame (cmd node_id : Nat) (payload : List Nat) : List Nat :=
  let body := (cmd &&& 0xFF) :: (node_id &&& 0xFF) :: payload
  (START_BYTE :: body.length :: body) ++ [crc8 (body.length :: body)]

/-- `_encode_frame(cmd, node_id, payload)`: Python's
`bytes([START_BYTE, len(body)])` raises `ValueError` (modelled as
`none`) exactly when `len(body) > 255`. -/
def encode_frame (cmd node_id : Nat) (payload : List Nat) : Option (List Nat) :=
  let body := (cmd &&& 0xFF) :: (node_id &&& 0xFF) :: payload
  if body.length ≤ 255 then some (mkFrame cmd node_id payload) else none

/-- Explicit inverse of `crcRound` on bytes, used to prove that a single
shift round of the CRC register is injective. -/
def crcRoundInv (y : Nat) : Nat :=
  if y &&& 1 ≠ 0 then ((y ^^^ CRC_POLY) >>> 1) + 128 else y >>> 1

/-- The `modes` dict of `send_actuator`:
`{"ON": 0x01, "OFF": 0x00, "PWM": 0x02}` as a lookup. -/
def modeCode (mode : String) : Option Nat :=
  if mode = "ON" then some 0x01
  else if mode = "OFF" then some 0x00
  else if mode = "PWM" then some 0x02
  else none

/-- `send_actuator(node_id, act_id, mode, pwm_val)`: `none` models the
`ValueError("mode must be ON/OFF/PWM")` raised before any byte reaches
the transport; `some frame` is the byte string written to the serial
port.  The payload is `struct.pack("BBB", modes[mode], act_id & 0x0F,
pwm_val & 0xFF)` and the command byte is `0x20`. -/
def send_actuator (node_id act_id : Nat) (mode : String) (pwm_val : Nat) :
    Option (List Nat) :=
  match modeCode mode with
  | none => none
  | some mb => encode_frame 0x20 node_id [mb, act_id &&& 0x0F, pwm_val &&& 0xFF]

/-- A frame-spec triple `(cmd, node_id, payload)`, its body as placed on
the wire by `_encode_frame`. -/
def body_of (s : Nat × Nat × List Nat) : List Nat :=
  (s.1 &&& 0xFF) :: (s.2.1 &&& 0xFF) :: s.2.2

/-- The wire frame of a frame-spec triple. -/
def frame_of (s : Nat × Nat × List Nat) : List Nat := mkFrame s.1 s.2.1 s.2.2

/-- The readings the receive path produces for one frame-spec triple:
sensor reports (command `0x01`) decode, all other commands contribute
nothing. -/
def readings_of (s : Nat × Nat × List Nat) : List Reading :=
  if s.1 = 0x01 then decode_sensor_report s.2.1 s.2.2 else []

/-! ## CRC-8 facts: range and single-byte injectivity -/

theorem crcRound_lt (c : Nat) : crcRound c < 256 := by
  unfold crcRound
  split <;> exact Nat.lt_succ_of_le Nat.and_le_right

theorem crcRoundInv_crcRound : ∀ c : Fin 256, crcRoundInv (crcRound c.val) = c.val := by
  decide

theorem crcRound_injOn {c c' : Nat} (hc : c < 256) (hc' : c' < 256)
    (h : crcRound c = crcRound c') : c = c' := by
  have h1 := crcRoundInv_crcRound ⟨c, hc⟩
  have h2 := crcRoundInv_crcRound ⟨c', hc'⟩
  simp only at h1 h2
  rw [← h1, ← h2, h]

theorem crcIter_injOn (k : Nat) {c c' : Nat} (hc : c < 256) (hc' : c' < 256)
    (h : crcRound^[k] c = crcRound^[k] c') : c = c' := by
  induction k generalizing c c' with
  | zero => simpa using h
  | succ k ih =>
    rw [Function.iterate_succ_apply, Function.iterate_succ_apply] at h
    exact crcRound_injOn hc hc' (ih (crcRound_lt c) (crcRound_lt c') h)

theorem crcByte_lt (c b : Nat) : crcByte c b < 256 := by
  unfold crcByte
  rw [show (8 : Nat) = 7 + 1 from rfl, Function.iterate_succ_apply']
  exact crcRound_lt _

theorem xor_lt_256 {a b : Nat} (ha : a < 256) (hb : b < 256) : a ^^^ b < 256 := by
  have h := Nat.xor_lt_two_pow (n := 8) (by simpa using ha) (by simpa using hb)
  simpa using h

theorem crcByte_inj_b {c b b' : Nat} (hc : c < 256) (hb : b < 256) (hb' : b' < 256)
    (h : crcByte c b = crcByte c b') : b = b' := by
  have h2 := crcIter_injOn 8 (xor_lt_256 hc hb) (xor_lt_256 hc hb') h
  have h3 := congrArg (fun z => c ^^^ z) h2
  simpa [Nat.xor_cancel_left] using h3

theorem crcByte_inj_c {c c' b : Nat} (hc : c < 256) (hc' : c' < 256) (hb : b < 256)
    (h : crcByte c b = crcByte c' b) : c = c' := by
  have h2 := crcIter_injOn 8 (xor_lt_256 hc hb) (xor_lt_256 hc' hb) h
  have h3 := congrArg (fun z => z ^^^ b) h2
  simpa [Nat.xor_cancel_right] using h3

theorem foldl_crcByte_lt (l : List Nat) (c : Nat) (hc : c < 256) :
    l.foldl crcByte c < 256 := by
  induction l generalizing c with
  | nil => simpa using hc
  | cons x xs ih => simpa using ih (crcByte c x) (crcByte_lt c x)

theorem foldl_crcByte_ne (l : List Nat) (hl : ∀ x ∈ l, x < 256) :
    ∀ {c c' : Nat}, c < 256 → c' < 256 → c ≠ c' →
      l.foldl crcByte c ≠ l.foldl crcByte c' := by
  induction l with
  | nil => intro c c' _ _ h; simpa using h
  | cons x xs ih =>
    intro c c' hc hc' hne
    simp only [List.foldl_cons]
    exact ih (fun y hy => hl y (List.mem_cons_of_mem _ hy))
      (crcByte_lt c x) (crcByte_lt c' x)
      (fun hEq => hne (crcByte_inj_c hc hc' (hl x (List.mem_cons_self x xs)) hEq))

/-- Changing a single byte of the checked region always changes the
CRC-8 value: the polynomial `0x31` shift map is invertible, so no
single-byte corruption can collide. -/
theorem crc8_change (pre : List Nat) {b b' : Nat} (suf : List Nat)
    (hb : b < 256) (hb' : b' < 256) (hsuf : ∀ x ∈ suf, x < 256) (hne : b ≠ b') :
    crc8 (pre ++ b :: suf) ≠ crc8 (pre ++ b' :: suf) := by
  unfold crc8
  rw [List.foldl_append, List.foldl_append]
  simp only [List.foldl_cons]
  have hc : pre.foldl crcByte 0 < 256 := foldl_crcByte_lt pre 0 (by norm_num)
  exact foldl_crcByte_ne suf hsuf (crcByte_lt _ b) (crcByte_lt _ b')
    (fun hEq => hne (crcByte_inj_b hc hb hb' hEq))

/-! ## Reassembly loop: fuel arithmetic and step lemmas -/

theorem rxGo_zero (buf : List Nat) : rxGo 0 buf = ([], buf) := rfl

theorem rxGo_succ (fuel : Nat) (buf : List Nat) :
    rxGo (fuel + 1) buf =
      if buf.length < 5 then ([], buf)
      else if buf.getD 0 0 ≠ START_BYTE then rxGo fuel buf.tail
      else if buf.length < buf.getD 1 0 + 3 then ([], buf)
      else if crc8 ((buf.take (buf.getD 1 0 + 3)).drop 1 |>.dropLast)
            ≠ (buf.take (buf.getD 1 0 + 3)).getLast?.getD 0 then
        rxGo fuel (buf.drop (buf.getD 1 0 + 3))
      else
        (((buf.take (buf.getD 1 0 + 3)).drop 2 |>.dropLast)
            :: (rxGo fuel (buf.drop (buf.getD 1 0 + 3))).1,
          (rxGo fuel (buf.drop (buf.getD 1 0 + 3))).2) := rfl

theorem rxGo_congr : ∀ (f g : Nat) (buf : List Nat),
    buf.length ≤ f → buf.length ≤ g → rxGo f buf = rxGo g buf := by
  intro f
  induction f with
  | zero =>
    intro g buf hf _
    have hb : buf = [] := List.length_eq_zero.mp (Nat.le_zero.mp hf)
    subst hb
    cases g with
    | zero => rfl
    | succ g => rw [rxGo_zero, rxGo_succ]; norm_num
  | succ f ih =>
    intro g buf hf hg
    cases g with
    | zero =>
      have hb : buf = [] := List.length_eq_zero.mp (Nat.le_zero.mp hg)
      subst hb
      rw [rxGo_zero, rxGo_succ]; norm_num
    | succ g =>
      rw [rxGo_succ, rxGo_succ]
      by_cases h5 : buf.length < 5
      · simp only [if_pos h5]
      · simp only [if_neg h5]
        by_cases hs : buf.getD 0 0 ≠ START_BYTE
        · simp only [if_pos hs]
          exact ih g buf.tail (by rw [List.length_tail]; omega)
            (by rw [List.length_tail]; omega)
        · simp only [if_neg hs]
          by_cases hw : buf.length < buf.getD 1 0 + 3
          · simp only [if_pos hw]
          · simp only [if_neg hw]
            have hr : (buf.drop (buf.getD 1 0 + 3)).length ≤ f := by
              rw [List.length_drop]; omega
            have hr' : (buf.drop (buf.getD 1 0 + 3)).length ≤ g := by
              rw [List.length_drop]; omega
            by_cases hc : crc8 ((buf.take (buf.getD 1 0 + 3)).drop 1 |>.dropLast)
                ≠ (buf.take (buf.getD 1 0 + 3)).getLast?.getD 0
            · simp only [if_pos hc]
              exact ih g _ hr hr'
            · simp only [if_neg hc]
              rw [ih g _ hr hr']

theorem rxLoop_nil : rxLoop [] = ([], []) := rfl

theorem rxLoop_short {buf : List Nat} (h : buf.length < 5) : rxLoop buf = ([], buf) := by
  unfold rxLoop
  cases hb : buf.length with
  | zero => exact rxGo_zero buf
  | succ n => rw [rxGo_succ, if_pos h]

theorem rxLoop_resync {buf : List Nat} (h5 : 5 ≤ buf.length)
    (hs : buf.getD 0 0 ≠ START_BYTE) : rxLoop buf = rxLoop buf.tail := by
  unfold rxLoop
  cases hb : buf.length with
  | zero => omega
  | succ n =>
    rw [rxGo_succ, if_neg (by omega), if_pos hs]
    exact rxGo_congr n buf.tail.length buf.tail (by rw [List.length_tail]; omega) le_rfl

theorem rxLoop_wait {buf : List Nat} (h5 : 5 ≤ buf.length)
    (hs : buf.getD 0 0 = START_BYTE) (hw : buf.length < buf.getD 1 0 + 3) :
    rxLoop buf = ([], buf) := by
  unfold rxLoop
  cases hb : buf.length with
  | zero => omega
  | succ n => rw [rxGo_succ, if_neg (by omega), if_neg (not_not_intro hs), if_pos hw]

theorem rxLoop_extract {buf : List Nat} (h5 : 5 ≤ buf.length)
    (hs : buf.getD 0 0 = START_BYTE) (hw : buf.getD 1 0 + 3 ≤ buf.length) :
    rxLoop buf =
      if crc8 ((buf.take (buf.getD 1 0 + 3)).drop 1 |>.dropLast)
          ≠ (buf.take (buf.getD 1 0 + 3)).getLast?.getD 0 then
        rxLoop (buf.drop (buf.getD 1 0 + 3))
      else
        (((buf.take (buf.getD 1 0 + 3)).drop 2 |>.dropLast)
            :: (rxLoop (buf.drop (buf.getD 1 0 + 3))).1,
          (rxLoop (buf.drop (buf.getD 1 0 + 3))).2) := by
  unfold rxLoop
  cases hb : buf.length with
  | zero => omega
  | succ n =>
    rw [rxGo_succ, if_neg (by omega), if_neg (not_not_intro hs), if_neg (by omega)]
    rw [rxGo_congr n (buf.drop (buf.getD 1 0 + 3)).length (buf.drop (buf.getD 1 0 + 3))
      (by rw [List.length_drop]; omega) le_rfl]

/-! ## Frame-shape facts -/

theorem frameShape_getD1 (L : Nat) (B : List Nat) (c : Nat) :
    ((START_BYTE :: L :: B) ++ [c]).getD 1 0 = L := rfl

theorem frameShape_region (L : Nat) (B : List Nat) (c : Nat) :
    (((START_BYTE :: L :: B) ++ [c]).drop 1).dropLast = L :: B := by
  rw [List.cons_append, List.drop_one, List.tail_cons, List.dropLast_concat]

theorem frameShape_getLast (L : Nat) (B : List Nat) (c : Nat) :
    ((START_BYTE :: L :: B) ++ [c]).getLast?.getD 0 = c := by
  rw [List.getLast?_concat]; rfl

theorem frameShape_body (L : Nat) (B : List Nat) (c : Nat) :
    (((START_BYTE :: L :: B) ++ [c]).drop 2).dropLast = B := by
  rw [List.cons_append, List.cons_append]
  show (B ++ [c]).dropLast = B
  exact List.dropLast_concat

theorem mkFrame_getD0 (cmd node_id : Nat) (pl : List Nat) :
    (mkFrame cmd node_id pl).getD 0 0 = START_BYTE := rfl

theorem mkFrame_getD1 (cmd node_id : Nat) (pl : List Nat) :
    (mkFrame cmd node_id pl).getD 1 0 = pl.length + 2 := by
  show ((cmd &&& 0xFF) :: (node_id &&& 0xFF) :: pl).length = pl.length + 2
  simp

theorem mkFrame_length (cmd node_id : Nat) (pl : List Nat) :
    (mkFrame cmd node_id pl).length = pl.length + 5 := by
  simp [mkFrame]

theorem mkFrame_region (cmd node_id : Nat) (pl : List Nat) :
    (((mkFrame cmd node_id pl).drop 1).dropLast)
      = ((cmd &&& 0xFF) :: (node_id &&& 0xFF) :: pl).length
          :: (cmd &&& 0xFF) :: (node_id &&& 0xFF) :: pl :=
  frameShape_region _ _ _

theorem mkFrame_getLast (cmd node_id : Nat) (pl : List Nat) :
    (mkFrame cmd node_id pl).getLast?.getD 0
      = crc8 (((cmd &&& 0xFF) :: (node_id &&& 0xFF) :: pl).length
          :: (cmd &&& 0xFF) :: (node_id &&& 0xFF) :: pl) :=
  frameShape_getLast _ _ _

theorem mkFrame_body (cmd node_id : Nat) (pl : List Nat) :
    (((mkFrame cmd node_id pl).drop 2).dropLast)
      = (cmd &&& 0xFF) :: (node_id &&& 0xFF) :: pl :=
  frameShape_body _ _ _

/-- A well-shaped candidate frame at the head of the buffer is sliced
out whole; it yields its body when the CRC matches and nothing at all
when it does not, and in both cases processing continues on the rest of
the stream. -/
theorem rxLoop_cons_frame {F : List Nat} (rest : List Nat)
    (h0 : F.getD 0 0 = START_BYTE) (hlen : F.length = F.getD 1 0 + 3)
    (h5 : 5 ≤ F.length) :
    rxLoop (F ++ rest) =
      if crc8 ((F.drop 1).dropLast) ≠ F.getLast?.getD 0 then rxLoop rest
      else (((F.drop 2).dropLast) :: (rxLoop rest).1, (rxLoop rest).2) := by
  have hlen5 : 5 ≤ (F ++ rest).length := by rw [List.length_append]; omega
  have hg0 : (F ++ rest).getD 0 0 = START_BYTE := by
    rw [List.getD_append _ _ _ _ (by omega)]; exact h0
  have hg1 : (F ++ rest).getD 1 0 = F.getD 1 0 := List.getD_append _ _ _ _ (by omega)
  have hwl : (F ++ rest).getD 1 0 + 3 ≤ (F ++ rest).length := by
    rw [hg1, List.length_append]; omega
  have htake : (F ++ rest).take ((F ++ rest).getD 1 0 + 3) = F := by
    rw [hg1]; exact List.take_left' hlen
  have hdrop : (F ++ rest).drop ((F ++ rest).getD 1 0 + 3) = rest := by
    rw [hg1]; exact List.drop_left' hlen
  rw [rxLoop_extract hlen5 hg0 hwl, htake, hdrop]

/-- Feeding a frame produced by the encoder followed by any further
bytes: the frame validates and contributes exactly its body. -/
theorem rxLoop_mkFrame_append (cmd node_id : Nat) (pl : List Nat) (rest : List Nat) :
    rxLoop (mkFrame cmd node_id pl ++ rest)
      = (((cmd &&& 0xFF) :: (node_id &&& 0xFF) :: pl) :: (rxLoop rest).1,
          (rxLoop rest).2) := by
  have h1 := mkFrame_getD1 cmd node_id pl
  have hL := mkFrame_length cmd node_id pl
  have hcrc : crc8 (((mkFrame cmd node_id pl).drop 1).dropLast)
      = (mkFrame cmd node_id pl).getLast?.getD 0 := by
    rw [mkFrame_region, mkFrame_getLast]
  rw [rxLoop_cons_frame rest (mkFrame_getD0 cmd node_id pl) (by omega) (by omega),
    if_neg (not_not_intro hcrc), mkFrame_body]

theorem rxLoop_mkFrame (cmd node_id : Nat) (pl : List Nat) :
    rxLoop (mkFrame cmd node_id pl)
      = ([(cmd &&& 0xFF) :: (node_id &&& 0xFF) :: pl], []) := by
  have h := rxLoop_mkFrame_append cmd node_id pl []
  rw [List.append_nil] at h
  simpa [rxLoop_nil] using h

/-- Streaming property of the extraction loop: processing `b ++ m` is
the same as processing `b`, keeping its leftover buffer, and processing
that leftover followed by `m`. -/
theorem rxLoop_append_aux : ∀ (n : Nat) (b m : List Nat), b.length ≤ n →
    rxLoop (b ++ m)
      = ((rxLoop b).1 ++ (rxLoop ((rxLoop b).2 ++ m)).1,
          (rxLoop ((rxLoop b).2 ++ m)).2) := by
  intro n
  induction n with
  | zero =>
    intro b m hb
    have hbe : b = [] := List.length_eq_zero.mp (Nat.le_zero.mp hb)
    subst hbe
    simp [rxLoop_nil]
  | succ n ih =>
    intro b m hb
    by_cases h5 : b.length < 5
    · rw [rxLoop_short h5]
      simp
    · push_neg at h5
      by_cases hs : b.getD 0 0 = START_BYTE
      · by_cases hw : b.length < b.getD 1 0 + 3
        · rw [rxLoop_wait h5 hs hw]
          simp
        · push_neg at hw
          have hbm5 : 5 ≤ (b ++ m).length := by rw [List.length_append]; omega
          have hg0 : (b ++ m).getD 0 0 = b.getD 0 0 :=
            List.getD_append _ _ _ _ (by omega)
          have hg1 : (b ++ m).getD 1 0 = b.getD 1 0 :=
            List.getD_append _ _ _ _ (by omega)
          have htk : (b ++ m).take ((b ++ m).getD 1 0 + 3)
              = b.take (b.getD 1 0 + 3) := by
            rw [hg1]; exact List.take_append_of_le_length (by omega)
          have hdp : (b ++ m).drop ((b ++ m).getD 1 0 + 3)
              = b.drop (b.getD 1 0 + 3) ++ m := by
            rw [hg1]; exact List.drop_append_of_le_length (by omega)
          have hlr : (b.drop (b.getD 1 0 + 3)).length ≤ n := by
            rw [List.length_drop]; omega
          rw [rxLoop_extract hbm5 (by rw [hg0]; exact hs)
              (by rw [hg1, List.length_append]; omega)]
          rw [rxLoop_extract h5 hs hw]
          rw [htk, hdp]
          by_cases hc : crc8 (((b.take (b.getD 1 0 + 3)).drop 1).dropLast)
              ≠ (b.take (b.getD 1 0 + 3)).getLast?.getD 0
          · rw [if_pos hc, if_pos hc]
            exact ih _ m hlr
          · rw [if_neg hc, if_neg hc]
            rw [ih (b.drop (b.getD 1 0 + 3)) m hlr]
            simp
      · cases b with
        | nil => simp at h5
        | cons x b' =>
          have hx : (x :: (b' ++ m)).getD 0 0 ≠ START_BYTE := by
            simpa using hs
          have h5' : 5 ≤ (x :: (b' ++ m)).length := by
            simp only [List.length_cons, List.length_append]
            simp only [List.length_cons] at h5
            omega
          rw [List.cons_append, rxLoop_resync h5' hx, List.tail_cons]
          rw [rxLoop_resync h5 hs, List.tail_cons]
          exact ih b' m (by simp only [List.length_cons] at hb; omega)

theorem rxLoop_append (b m : List Nat) :
    rxLoop (b ++ m)
      = ((rxLoop b).1 ++ (rxLoop ((rxLoop b).2 ++ m)).1,
          (rxLoop ((rxLoop b).2 ++ m)).2) :=
  rxLoop_append_aux b.length b m le_rfl

/-- After the extraction loop returns, the leftover buffer is at one of
the loop's two wait states: shorter than the 5-byte minimum, or a
sentinel-headed strict prefix of a frame that still lacks bytes. -/
theorem rxLoop_buffer_aux : ∀ (n : Nat) (buf : List Nat), buf.length ≤ n →
    (rxLoop buf).2.length < 5 ∨
      ((rxLoop buf).2.getD 0 0 = START_BYTE ∧
        (rxLoop buf).2.length < (rxLoop buf).2.getD 1 0 + 3) := by
  intro n
  induction n with
  | zero =>
    intro buf hb
    have hbe : buf = [] := List.length_eq_zero.mp (Nat.le_zero.mp hb)
    subst hbe
    left; simp [rxLoop_nil]
  | succ n ih =>
    intro buf hb
    by_cases h5 : buf.length < 5
    · rw [rxLoop_short h5]; left; exact h5
    · push_neg at h5
      by_cases hs : buf.getD 0 0 = START_BYTE
      · by_cases hw : buf.length < buf.getD 1 0 + 3
        · rw [rxLoop_wait h5 hs hw]; right; exact ⟨hs, hw⟩
        · push_neg at hw
          have hlr : (buf.drop (buf.getD 1 0 + 3)).length ≤ n := by
            rw [List.length_drop]; omega
          rw [rxLoop_extract h5 hs hw]
          by_cases hc : crc8 (((buf.take (buf.getD 1 0 + 3)).drop 1).dropLast)
              ≠ (buf.take (buf.getD 1 0 + 3)).getLast?.getD 0
          · rw [if_pos hc]; exact ih _ hlr
          · rw [if_neg hc]; exact ih _ hlr
      · cases buf with
        | nil => simp at h5
        | cons x b' =>
          rw [rxLoop_resync h5 hs, List.tail_cons]
          exact ih b' (by simp only [List.length_cons] at hb; omega)

/-! ## Handler and encoder helpers -/

theorem handleAll_single (b0 b1 : Nat) (t : List Nat) :
    handleAll [b0 :: b1 :: t]
      = some ((if b0 = 0x01 then decode_sensor_report b1 t else []) ++ []) := rfl

theorem and255_eq {x : Nat} (h : x < 256) : x &&& 0xFF = x := by
  have hx : x < 2 ^ 8 := by simpa using h
  have h2 := Nat.and_pow_two_sub_one_of_lt_two_pow hx
  simpa using h2

theorem encode_frame_eq_some {cmd node_id : Nat} {pl : List Nat}
    (hl : pl.length + 2 ≤ 255) :
    encode_frame cmd node_id pl = some (mkFrame cmd node_id pl) := by
  show (if ((cmd &&& 0xFF) :: (node_id &&& 0xFF) :: pl).length ≤ 255
      then some (mkFrame cmd node_id pl) else none) = some (mkFrame cmd node_id pl)
  rw [if_pos (by simp only [List.length_cons]; omega)]

theorem encode_frame_inv {cmd node_id : Nat} {pl F : List Nat}
    (h : encode_frame cmd node_id pl = some F) :
    F = mkFrame cmd node_id pl ∧ pl.length + 2 ≤ 255 := by
  by_cases hc : pl.length + 2 ≤ 255
  · refine ⟨?_, hc⟩
    rw [encode_frame_eq_some hc] at h
    exact (Option.some.inj h).symm
  · exfalso
    have hn : encode_frame cmd node_id pl = none := by
      show (if ((cmd &&& 0xFF) :: (node_id &&& 0xFF) :: pl).length ≤ 255
          then some (mkFrame cmd node_id pl) else none) = none
      rw [if_neg (by simp only [List.length_cons]; omega)]
    rw [hn] at h
    exact Option.noConfusion h

/-! ## Claims -/

/-- C1: for every command byte, node byte and payload accepted by the
encoder, running the reassembler on the encoded frame yields back
exactly the body `(cmd, node_id, payload)` — and nothing else, with an
empty leftover buffer. -/
theorem encode_decode_roundtrip (cmd node_id : Nat) (pl F : List Nat)
    (hc : cmd < 256) (hn : node_id < 256)
    (hF : encode_frame cmd node_id pl = some F) :
    rxLoop F = ([cmd :: node_id :: pl], []) := by
  obtain ⟨rfl, hl⟩ := encode_frame_inv hF
  rw [rxLoop_mkFrame, and255_eq hc, and255_eq hn]

theorem encode_decode_roundtrip_witness :
    rxLoop (mkFrame 0x01 0x02 [0x01, 0x01, 0x00, 0xEB, 0x00])
      = ([0x01 :: 0x02 :: [0x01, 0x01, 0x00, 0xEB, 0x00]], []) :=
  encode_decode_roundtrip 0x01 0x02 [0x01, 0x01, 0x00, 0xEB, 0x00]
    (mkFrame 0x01 0x02 [0x01, 0x01, 0x00, 0xEB, 0x00])
    (by decide) (by decide) (by decide)

/-- C3: the receive path is *not* exception-free.  The 5-byte stream
`55 00 00 00 00` satisfies the loop's entry guard, the leading 3 bytes
form a checksum-valid frame with length byte 0, and its empty body makes
`_handle`'s tuple unpacking raise `IndexError` (the `none` component
below); two bytes stay buffered. -/
theorem rx_crashes_on_length0_frame :
    feed [] [0x55, 0x00, 0x00, 0x00, 0x00] = (none, [0x00, 0x00]) := by
  decide

/-- C4: a frame accepted by the encoder can be fed whole or split at any
byte boundary `k` across two `feed` calls; both schedules produce
readings (no exception) and the two readings lists of the split schedule
concatenate to exactly the readings of the whole-frame schedule. -/
theorem split_feed_readings (cmd node_id : Nat) (pl F : List Nat) (k : Nat)
    (hF : encode_frame cmd node_id pl = some F) :
    ∃ l₁ l₂,
      (feed [] (F.take k)).1 = some l₁ ∧
      (feed ((feed [] (F.take k)).2) (F.drop k)).1 = some l₂ ∧
      (feed [] F).1 = some (l₁ ++ l₂) := by
  obtain ⟨rfl, hl⟩ := encode_frame_inv hF
  have hwhole := rxLoop_mkFrame cmd node_id pl
  have happ := rxLoop_append ((mkFrame cmd node_id pl).take k)
    ((mkFrame cmd node_id pl).drop k)
  rw [List.take_append_drop, hwhole] at happ
  have hfst : [(cmd &&& 0xFF) :: (node_id &&& 0xFF) :: pl]
      = (rxLoop ((mkFrame cmd node_id pl).take k)).1
        ++ (rxLoop ((rxLoop ((mkFrame cmd node_id pl).take k)).2
            ++ (mkFrame cmd node_id pl).drop k)).1 :=
    congrArg Prod.fst happ
  cases hA : (rxLoop ((mkFrame cmd node_id pl).take k)).1 with
  | nil =>
    rw [hA, List.nil_append] at hfst
    refine ⟨[], (if cmd &&& 0xFF = 0x01
        then decode_sensor_report (node_id &&& 0xFF) pl else []) ++ [], ?_, ?_, ?_⟩
    · show handleAll (rxLoop ([] ++ (mkFrame cmd node_id pl).take k)).1 = some []
      rw [List.nil_append, hA]
      rfl
    · show handleAll (rxLoop ((rxLoop ([] ++ (mkFrame cmd node_id pl).take k)).2
          ++ (mkFrame cmd node_id pl).drop k)).1 = _
      rw [List.nil_append, ← hfst]
      exact handleAll_single _ _ _
    · show handleAll (rxLoop ([] ++ mkFrame cmd node_id pl)).1 = _
      rw [List.nil_append, hwhole]
      exact handleAll_single _ _ _
  | cons x t =>
    rw [hA] at hfst
    have hx : x = (cmd &&& 0xFF) :: (node_id &&& 0xFF) :: pl
        ∧ t ++ (rxLoop ((rxLoop ((mkFrame cmd node_id pl).take k)).2
            ++ (mkFrame cmd node_id pl).drop k)).1 = [] := by
      have := List.cons.inj hfst.symm
      exact ⟨this.1, this.2⟩
    obtain ⟨rfl, hte⟩ := hx
    obtain ⟨ht, hB⟩ := List.append_eq_nil.mp hte
    subst ht
    refine ⟨(if cmd &&& 0xFF = 0x01
        then decode_sensor_report (node_id &&& 0xFF) pl else []) ++ [], [], ?_, ?_, ?_⟩
    · show handleAll (rxLoop ([] ++ (mkFrame cmd node_id pl).take k)).1 = _
      rw [List.nil_append, hA]
      exact handleAll_single _ _ _
    · show handleAll (rxLoop ((rxLoop ([] ++ (mkFrame cmd node_id pl).take k)).2
          ++ (mkFrame cmd node_id pl).drop k)).1 = some []
      rw [List.nil_append, hB]
      rfl
    · show handleAll (rxLoop ([] ++ mkFrame cmd node_id pl)).1 = _
      rw [List.nil_append, hwhole, List.append_nil]
      exact handleAll_single _ _ _

theorem split_feed_readings_witness :
    ∃ l₁ l₂,
      (feed [] ((mkFrame 0x01 0x02 [0x01, 0x01, 0x00, 0xEB, 0x00]).take 4)).1 = some l₁ ∧
      (feed ((feed [] ((mkFrame 0x01 0x02 [0x01, 0x01, 0x00, 0xEB, 0x00]).take 4)).2)
          ((mkFrame 0x01 0x02 [0x01, 0x01, 0x00, 0xEB, 0x00]).drop 4)).1 = some l₂ ∧
      (feed [] (mkFrame 0x01 0x02 [0x01, 0x01, 0x00, 0xEB, 0x00])).1 = some (l₁ ++ l₂) :=
  split_feed_readings 0x01 0x02 [0x01, 0x01, 0x00, 0xEB, 0x00]
    (mkFrame 0x01 0x02 [0x01, 0x01, 0x00, 0xEB, 0x00]) 4 (by decide)

/-- C6: after every completed reassembly pass the leftover buffer is at
a wait state of the extraction loop — below the 5-byte minimum, or a
sentinel-headed strict prefix of a frame still missing bytes — and in
particular never holds a complete frame the loop could recognize and
extract at its head. -/
theorem reassembly_buffer_invariant (buf new : List Nat) :
    ((feed buf new).2.length < 5 ∨
      ((feed buf new).2.getD 0 0 = START_BYTE ∧
        (feed buf new).2.length < (feed buf new).2.getD 1 0 + 3)) ∧
    ¬(5 ≤ (feed buf new).2.length ∧ (feed buf new).2.getD 0 0 = START_BYTE ∧
        (feed buf new).2.getD 1 0 + 3 ≤ (feed buf new).2.length) := by
  have h := rxLoop_buffer_aux (buf ++ new).length (buf ++ new) le_rfl
  have hfd : (feed buf new).2 = (rxLoop (buf ++ new)).2 := rfl
  rw [hfd]
  refine ⟨h, ?_⟩
  rintro ⟨ha, hbs, hc⟩
  rcases h with h | ⟨h1, h2⟩
  · omega
  · omega

/-- C7: a payload whose body would exceed 255 bytes makes the encoder
raise (`bytes([START_BYTE, len(body)])` rejects the length value), so no
frame — in particular none with a wrapped-around length byte — is ever
produced. -/
theorem encode_overlong_fails (cmd node_id : Nat) (pl : List Nat)
    (h : 255 < pl.length + 2) :
    encode_frame cmd node_id pl = none := by
  show (if ((cmd &&& 0xFF) :: (node_id &&& 0xFF) :: pl).length ≤ 255
      then some (mkFrame cmd node_id pl) else none) = none
  rw [if_neg (by simp only [List.length_cons]; omega)]

theorem encode_overlong_fails_witness :
    encode_frame 0x01 0x02 (List.replicate 254 0x00) = none :=
  encode_overlong_fails 0x01 0x02 (List.replicate 254 0x00) (by simp)

theorem handleAll_cons_some {b : List Nat} {r : List Reading}
    {bs : List (List Nat)} {rs : List Reading}
    (hb : handle b = some r) (hbs : handleAll bs = some rs) :
    handleAll (b :: bs) = some (r ++ rs) := by
  unfold handleAll
  rw [hb, hbs]

theorem handle_body_of (s : Nat × Nat × List Nat) (h1 : s.1 < 256)
    (h2 : s.2.1 < 256) : handle (body_of s) = some (readings_of s) := by
  show some (if s.1 &&& 0xFF = 0x01
      then decode_sensor_report (s.2.1 &&& 0xFF) s.2.2 else [])
    = some (readings_of s)
  rw [and255_eq h1, and255_eq h2]
  rfl

theorem rxLoop_frames (specs : List (Nat × Nat × List Nat)) :
    rxLoop ((specs.map frame_of).flatten) = (specs.map body_of, []) := by
  induction specs with
  | nil => simp [rxLoop_nil]
  | cons s ss ih =>
    simp only [List.map_cons, List.flatten_cons, frame_of]
    rw [rxLoop_mkFrame_append, ih]
    rfl

theorem handleAll_bodies (specs : List (Nat × Nat × List Nat))
    (hv : ∀ s ∈ specs, s.1 < 256 ∧ s.2.1 < 256) :
    handleAll (specs.map body_of) = some ((specs.map readings_of).flatten) := by
  induction specs with
  | nil => rfl
  | cons s ss ih =>
    simp only [List.map_cons, List.flatten_cons]
    exact handleAll_cons_some
      (handle_body_of s (hv s (List.mem_cons_self s ss)).1
        (hv s (List.mem_cons_self s ss)).2)
      (ih (fun x hx => hv x (List.mem_cons_of_mem _ hx)))

/-- C5: feeding the concatenation of any list of encoder-accepted
frames — any mix of sensor reports (command `0x01`) and actuator
commands (command `0x20`) — in one call yields exactly the readings of
the sensor-report frames, in stream order; non-sensor frames contribute
nothing, and the buffer ends empty. -/
theorem multi_frame_feed (specs : List (Nat × Nat × List Nat))
    (hv : ∀ s ∈ specs,
      (s.1 = 0x01 ∨ s.1 = 0x20) ∧ s.2.1 < 256 ∧ s.2.2.length + 2 ≤ 255) :
    (∀ s ∈ specs, encode_frame s.1 s.2.1 s.2.2 = some (frame_of s)) ∧
    feed [] ((specs.map frame_of).flatten)
      = (some ((specs.map readings_of).flatten), []) := by
  constructor
  · intro s hs
    exact encode_frame_eq_some (hv s hs).2.2
  · have h1 := rxLoop_frames specs
    have h2 := handleAll_bodies specs (fun s hs =>
      ⟨by rcases (hv s hs).1 with h | h <;> omega, (hv s hs).2.1⟩)
    have hfeed : feed [] ((specs.map frame_of).flatten)
        = (handleAll (rxLoop ((specs.map frame_of).flatten)).1,
            (rxLoop ((specs.map frame_of).flatten)).2) := by
      unfold feed; rw [List.nil_append]
    rw [hfeed, h1]
    simp [h2]

theorem multi_frame_feed_witness :
    (∀ s ∈ ([(0x01, 0x02, [0x01, 0x01, 0x00, 0xEB, 0x00]),
        (0x20, 0x05, [0x02, 0x03, 0xC8])] : List (Nat × Nat × List Nat)),
      encode_frame s.1 s.2.1 s.2.2 = some (frame_of s)) ∧
    feed [] ((([(0x01, 0x02, [0x01, 0x01, 0x00, 0xEB, 0x00]),
        (0x20, 0x05, [0x02, 0x03, 0xC8])] : List (Nat × Nat × List Nat)).map
          frame_of).flatten)
      = (some ((([(0x01, 0x02, [0x01, 0x01, 0x00, 0xEB, 0x00]),
          (0x20, 0x05, [0x02, 0x03, 0xC8])] : List (Nat × Nat × List Nat)).map
            readings_of).flatten), []) :=
  multi_frame_feed
    [(0x01, 0x02, [0x01, 0x01, 0x00, 0xEB, 0x00]),
      (0x20, 0x05, [0x02, 0x03, 0xC8])] (by decide)

/-- C8: a validated sensor-report body with a complete first TLV entry
decodes it to the reading with
`sensor_id = "{type}_{node:02d}_{number}"` (`TEMP`/`HUM`/`PRESS` for
type codes 0/1/2, `GEN` otherwise) and
`value = ((value_hi << 8) | value_lo) / 10`. -/
theorem sensor_entry_decoding (node_id cnt t_s hi lo age : Nat) (rest : List Nat)
    (hcnt : 1 ≤ cnt) :
    ∃ tail, decode_sensor_report node_id (cnt :: t_s :: hi :: lo :: age :: rest)
      = { sensor_id := typeName (t_s >>> 4) ++ "_" ++ pad2 node_id ++ "_"
            ++ Nat.repr (t_s &&& 0x0F)
        , value := (((hi <<< 8) ||| lo : Nat) : ℚ) / 10 } :: tail := by
  obtain ⟨k, rfl⟩ := Nat.exists_eq_add_of_le hcnt
  refine ⟨decodeLoop node_id ((1 + k) :: t_s :: hi :: lo :: age :: rest) 5 k, ?_⟩
  rw [Nat.add_comm 1 k]
  show (if ((k + 1) :: t_s :: hi :: lo :: age :: rest).length < 5 then []
      else mkReading node_id t_s hi lo
        :: decodeLoop node_id ((k + 1) :: t_s :: hi :: lo :: age :: rest) 5 k) = _
  rw [if_neg (by simp only [List.length_cons]; omega)]
  rfl

theorem sensor_entry_decoding_witness :
    ∃ tail, decode_sensor_report 0x02 [0x01, 0x01, 0x00, 0xEB, 0x00]
      = { sensor_id := "TEMP_02_1", value := (47 : ℚ) / 2 } :: tail := by
  obtain ⟨tail, ht⟩ := sensor_entry_decoding 0x02 0x01 0x01 0x00 0xEB 0x00 [] (by decide)
  refine ⟨tail, ?_⟩
  have hs : typeName (0x01 >>> 4) ++ "_" ++ pad2 0x02 ++ "_"
      ++ Nat.repr (0x01 &&& 0x0F) = "TEMP_02_1" := by decide
  have h1 : ((0x00 <<< 8) ||| 0xEB : Nat) = 235 := by decide
  have hv : ((235 : Nat) : ℚ) / 10 = (47 : ℚ) / 2 := by norm_num
  rw [ht, hs, h1, hv]

theorem decodeLoop_zero (node_id : Nat) (data : List Nat) (idx : Nat) :
    decodeLoop node_id data idx 0 = [] := rfl

theorem decodeLoop_succ (node_id : Nat) (data : List Nat) (idx n : Nat) :
    decodeLoop node_id data idx (n + 1)
      = if data.length < idx + 4 then []
        else mkReading node_id (data.getD idx 0) (data.getD (idx + 1) 0)
            (data.getD (idx + 2) 0)
          :: decodeLoop node_id data (idx + 4) n := rfl

theorem decodeLoop_length (node_id : Nat) (data : List Nat) :
    ∀ (n idx : Nat), (decodeLoop node_id data idx n).length
      = min n ((data.length - idx) / 4) := by
  intro n
  induction n with
  | zero => intro idx; simp [decodeLoop_zero]
  | succ n ih =>
    intro idx
    rw [decodeLoop_succ]
    by_cases h : data.length < idx + 4
    · rw [if_pos h]
      simp only [List.length_nil]
      omega
    · rw [if_neg h]
      simp only [List.length_cons, ih (idx + 4)]
      omega

theorem decodeLoop_count_irrel (node_id : Nat) (data : List Nat) :
    ∀ (n m idx : Nat), (data.length - idx) / 4 ≤ n → (data.length - idx) / 4 ≤ m →
      decodeLoop node_id data idx n = decodeLoop node_id data idx m := by
  intro n
  induction n with
  | zero =>
    intro m idx hn _
    cases m with
    | zero => rfl
    | succ m => rw [decodeLoop_zero, decodeLoop_succ, if_pos (by omega)]
  | succ n ih =>
    intro m idx hn hm
    cases m with
    | zero => rw [decodeLoop_zero, decodeLoop_succ, if_pos (by omega)]
    | succ m =>
      rw [decodeLoop_succ, decodeLoop_succ]
      by_cases h : data.length < idx + 4
      · rw [if_pos h, if_pos h]
      · rw [if_neg h, if_neg h, ih m (idx + 4) (by omega) (by omega)]

/-- C9: when the declared TLV count exceeds the complete 4-byte entries
present, the decoder returns — without failing — exactly the readings of
the entries that fit (`payload-length / 4` of them), silently discarding
the partial trailing entry. -/
theorem truncated_tlv_tolerated (node_id cnt : Nat) (rest : List Nat)
    (h : rest.length / 4 < cnt) :
    decode_sensor_report node_id (cnt :: rest)
        = decodeLoop node_id (cnt :: rest) 1 (rest.length / 4) ∧
      (decode_sensor_report node_id (cnt :: rest)).length = rest.length / 4 := by
  have hds : decode_sensor_report node_id (cnt :: rest)
      = decodeLoop node_id (cnt :: rest) 1 cnt := rfl
  constructor
  · rw [hds]
    exact decodeLoop_count_irrel node_id (cnt :: rest) cnt (rest.length / 4) 1
      (by simp only [List.length_cons]; omega)
      (by simp only [List.length_cons]; omega)
  · rw [hds, decodeLoop_length]
    simp only [List.length_cons]
    omega

theorem truncated_tlv_tolerated_witness :
    decode_sensor_report 0x00 (0x02 :: [0x01, 0x00, 0xEB, 0x00, 0x09, 0x09])
        = decodeLoop 0x00 (0x02 :: [0x01, 0x00, 0xEB, 0x00, 0x09, 0x09]) 1
            (([0x01, 0x00, 0xEB, 0x00, 0x09, 0x09] : List Nat).length / 4) ∧
      (decode_sensor_report 0x00
          (0x02 :: [0x01, 0x00, 0xEB, 0x00, 0x09, 0x09])).length
        = ([0x01, 0x00, 0xEB, 0x00, 0x09, 0x09] : List Nat).length / 4 :=
  truncated_tlv_tolerated 0x00 0x02 [0x01, 0x00, 0xEB, 0x00, 0x09, 0x09] (by decide)

theorem mkFrame_getD2 (cmd node_id : Nat) (pl : List Nat) :
    (mkFrame cmd node_id pl).getD 2 0 = cmd &&& 0xFF := rfl

theorem mkFrame_payload (cmd node_id : Nat) (pl : List Nat) :
    ((mkFrame cmd node_id pl).drop 4).dropLast = pl := by
  show (pl ++ [crc8 (((cmd &&& 0xFF) :: (node_id &&& 0xFF) :: pl).length
      :: (cmd &&& 0xFF) :: (node_id &&& 0xFF) :: pl)]).dropLast = pl
  exact List.dropLast_concat

/-- C10: `send_actuator` raises the invalid-argument error exactly when
`mode` is outside `{ON, OFF, PWM}` (and then writes nothing: `none`
carries no frame); for a valid mode it writes the frame with command
byte `0x20` and payload `[mode_byte, act_id & 0x0F, pwm_val & 0xFF]`. -/
theorem send_actuator_mode_contract (node_id act_id : Nat) (mode : String)
    (pwm_val : Nat) :
    (send_actuator node_id act_id mode pwm_val = none
      ↔ ¬(mode = "ON" ∨ mode = "OFF" ∨ mode = "PWM")) ∧
    (∀ mb, modeCode mode = some mb →
      send_actuator node_id act_id mode pwm_val
          = some (mkFrame 0x20 node_id [mb, act_id &&& 0x0F, pwm_val &&& 0xFF])
        ∧ (mkFrame 0x20 node_id [mb, act_id &&& 0x0F, pwm_val &&& 0xFF]).getD 2 0
            = 0x20
        ∧ ((mkFrame 0x20 node_id
            [mb, act_id &&& 0x0F, pwm_val &&& 0xFF]).drop 4).dropLast
            = [mb, act_id &&& 0x0F, pwm_val &&& 0xFF]) := by
  constructor
  · constructor
    · intro hnone hvalid
      have hmb : ∃ mb, modeCode mode = some mb := by
        rcases hvalid with h | h | h <;> subst h <;> exact ⟨_, rfl⟩
      obtain ⟨mb, hmb⟩ := hmb
      have hs : send_actuator node_id act_id mode pwm_val
          = some (mkFrame 0x20 node_id [mb, act_id &&& 0x0F, pwm_val &&& 0xFF]) := by
        unfold send_actuator
        rw [hmb]
        exact encode_frame_eq_some (by simp)
      rw [hs] at hnone
      exact Option.noConfusion hnone
    · intro hinvalid
      push_neg at hinvalid
      have hmc : modeCode mode = none := by
        unfold modeCode
        rw [if_neg hinvalid.1, if_neg hinvalid.2.1, if_neg hinvalid.2.2]
      unfold send_actuator
      rw [hmc]
  · intro mb hmb
    have hs : send_actuator node_id act_id mode pwm_val
        = some (mkFrame 0x20 node_id [mb, act_id &&& 0x0F, pwm_val &&& 0xFF]) := by
      unfold send_actuator
      rw [hmb]
      exact encode_frame_eq_some (by simp)
    exact ⟨hs, mkFrame_getD2 0x20 node_id _, mkFrame_payload 0x20 node_id _⟩

theorem send_actuator_mode_contract_witness :
    send_actuator 0x05 0x03 "PWM" 0xC8
      = some (mkFrame 0x20 0x05 [0x02, 0x03, 0xC8]) := by
  have h := (send_actuator_mode_contract 0x05 0x03 "PWM" 0xC8).2 0x02 (by decide)
  have h2 : ([0x02, (0x03 : Nat) &&& 0x0F, (0xC8 : Nat) &&& 0xFF] : List Nat)
      = [0x02, 0x03, 0xC8] := by decide
  rw [← h2]
  exact h.1

/-! ## Single-byte corruption (C2) -/

theorem rxLoop_drop_corrupt {F' : List Nat} (rest : List Nat)
    (h0 : F'.getD 0 0 = START_BYTE) (hlen : F'.length = F'.getD 1 0 + 3)
    (h5 : 5 ≤ F'.length)
    (hbad : crc8 ((F'.drop 1).dropLast) ≠ F'.getLast?.getD 0) :
    rxLoop (F' ++ rest) = rxLoop rest := by
  rw [rxLoop_cons_frame rest h0 hlen h5, if_pos hbad]

theorem frameShape_length (L : Nat) (B : List Nat) (c : Nat) :
    ((START_BYTE :: L :: B) ++ [c]).length = B.length + 3 := by
  simp

theorem set_payload_frame (L c1 c2 : Nat) (pl : List Nat) (crc : Nat)
    {i : Nat} (hi : i < pl.length) (b' : Nat) :
    (START_BYTE :: L :: c1 :: c2 :: (pl ++ [crc])).set (4 + i) b'
      = (START_BYTE :: L :: c1 :: c2 :: pl.set i b') ++ [crc] := by
  have h4 : 4 + i = i + 1 + 1 + 1 + 1 := by omega
  rw [h4]
  simp only [List.set_cons_succ]
  rw [List.set_append_left _ _ hi]
  simp

theorem set_checksum_frame (L c1 c2 : Nat) (pl : List Nat) (crc : Nat) (b' : Nat) :
    (START_BYTE :: L :: c1 :: c2 :: (pl ++ [crc])).set (4 + pl.length) b'
      = (START_BYTE :: L :: c1 :: c2 :: pl) ++ [b'] := by
  have h4 : 4 + pl.length = pl.length + 1 + 1 + 1 + 1 := by omega
  rw [h4]
  simp only [List.set_cons_succ]
  rw [List.set_append_right _ _ (le_refl pl.length)]
  simp

theorem frame_getD_payload (L c1 c2 : Nat) (pl : List Nat) (crc : Nat)
    {i : Nat} (hi : i < pl.length) :
    (START_BYTE :: L :: c1 :: c2 :: (pl ++ [crc])).getD (4 + i) 0 = pl.getD i 0 := by
  have h4 : 4 + i = i + 1 + 1 + 1 + 1 := by omega
  rw [h4]
  simp only [List.getD_cons_succ]
  exact List.getD_append _ _ _ _ hi

theorem frame_getD_checksum (L c1 c2 : Nat) (pl : List Nat) (crc : Nat) :
    (START_BYTE :: L :: c1 :: c2 :: (pl ++ [crc])).getD (4 + pl.length) 0 = crc := by
  have h4 : 4 + pl.length = pl.length + 1 + 1 + 1 + 1 := by omega
  rw [h4]
  simp only [List.getD_cons_succ]
  rw [List.getD_append_right _ _ _ _ (le_refl pl.length)]
  simp

theorem mkFrame_cons_form (cmd node_id : Nat) (pl : List Nat) :
    mkFrame cmd node_id pl
      = START_BYTE :: ((cmd &&& 0xFF) :: (node_id &&& 0xFF) :: pl).length
          :: (cmd &&& 0xFF) :: (node_id &&& 0xFF)
          :: (pl ++ [crc8 (((cmd &&& 0xFF) :: (node_id &&& 0xFF) :: pl).length
              :: (cmd &&& 0xFF) :: (node_id &&& 0xFF) :: pl)]) := by
  simp [mkFrame]

theorem crc_mismatch_payload (L c1 c2 : Nat) (pl : List Nat)
    {i : Nat} (hi : i < pl.length) {b' : Nat} (hb' : b' < 256)
    (hpl : ∀ x ∈ pl, x < 256) (hne : b' ≠ pl.getD i 0) :
    crc8 (L :: c1 :: c2 :: pl.set i b') ≠ crc8 (L :: c1 :: c2 :: pl) := by
  have hset : pl.set i b' = pl.take i ++ b' :: pl.drop (i + 1) :=
    List.set_eq_take_cons_drop b' hi
  have hplsplit : pl = pl.take i ++ pl[i] :: pl.drop (i + 1) := by
    conv_lhs => rw [← List.take_append_drop i pl]
    rw [← List.getElem_cons_drop pl i hi]
  have hshape1 : L :: c1 :: c2 :: (pl.take i ++ b' :: pl.drop (i + 1))
      = (L :: c1 :: c2 :: pl.take i) ++ b' :: pl.drop (i + 1) := by
    simp
  have hshape2 : L :: c1 :: c2 :: (pl.take i ++ pl[i] :: pl.drop (i + 1))
      = (L :: c1 :: c2 :: pl.take i) ++ pl[i] :: pl.drop (i + 1) := by
    simp
  have hgd : pl.getD i 0 = pl[i] := List.getD_eq_getElem pl 0 hi
  have hip : pl[i] < 256 := hpl _ (List.getElem_mem hi)
  have hsuf : ∀ x ∈ pl.drop (i + 1), x < 256 :=
    fun x hx => hpl x (List.mem_of_mem_drop hx)
  rw [hset, hshape1]
  conv_rhs => rw [hplsplit, hshape2]
  exact (crc8_change (L :: c1 :: c2 :: pl.take i) (pl.drop (i + 1)) hip hb' hsuf
    (by rw [← hgd]; exact Ne.symm hne)).symm

/-- C2: take any frame accepted by the encoder, change exactly one
payload byte or the checksum byte to a different byte value, and feed
the corrupted frame followed by any continuation of the stream: the
flip always breaks the CRC (the shift map of polynomial `0x31` is
invertible), so the corrupted frame is sliced out and silently dropped —
zero readings, no exception — and the continuation (e.g. subsequent
valid frames) is processed exactly as if fed alone. -/
theorem corrupted_frame_dropped (cmd node_id : Nat) (pl F : List Nat)
    (p b' : Nat) (rest : List Nat)
    (hpl : ∀ x ∈ pl, x < 256)
    (hF : encode_frame cmd node_id pl = some F)
    (hp : (4 ≤ p ∧ p < 4 + pl.length) ∨ p = 4 + pl.length)
    (hb' : b' < 256) (hne : b' ≠ F.getD p 0) :
    feed [] (F.set p b' ++ rest) = feed [] rest
      ∧ feed [] (F.set p b') = (some [], []) := by
  obtain ⟨rfl, hl⟩ := encode_frame_inv hF
  have hfeed : ∀ x : List Nat, feed [] x = (handleAll (rxLoop x).1, (rxLoop x).2) := by
    intro x; unfold feed; rw [List.nil_append]
  have hmk := mkFrame_cons_form cmd node_id pl
  have main : ∀ r : List Nat,
      rxLoop ((mkFrame cmd node_id pl).set p b' ++ r) = rxLoop r := by
    intro r
    rcases hp with ⟨hp4, hplt⟩ | rfl
    · obtain ⟨i, rfl⟩ : ∃ i, p = 4 + i := ⟨p - 4, by omega⟩
      have hi : i < pl.length := by omega
      rw [hmk, frame_getD_payload _ _ _ _ _ hi] at hne
      rw [hmk, set_payload_frame _ _ _ _ _ hi]
      exact rxLoop_drop_corrupt r rfl
        (by rw [frameShape_length, frameShape_getD1]
            simp [List.length_set])
        (by rw [frameShape_length]
            simp only [List.length_cons, List.length_set]
            omega)
        (by rw [frameShape_region, frameShape_getLast]
            exact crc_mismatch_payload _ _ _ pl hi hb' hpl hne)
    · rw [hmk, frame_getD_checksum] at hne
      rw [hmk, set_checksum_frame]
      exact rxLoop_drop_corrupt r rfl
        (by rw [frameShape_length, frameShape_getD1])
        (by rw [frameShape_length]
            simp only [List.length_cons]
            omega)
        (by rw [frameShape_region, frameShape_getLast]
            exact Ne.symm hne)
  constructor
  · rw [hfeed, hfeed, main rest]
  · have h2 := main []
    rw [List.append_nil] at h2
    rw [hfeed, h2, rxLoop_nil]
    rfl

theorem corrupted_frame_dropped_witness :
    feed [] ((mkFrame 0x01 0x02 [0x07]).set 4 0x09 ++ mkFrame 0x01 0x02 [0x07])
        = feed [] (mkFrame 0x01 0x02 [0x07])
      ∧ feed [] ((mkFrame 0x01 0x02 [0x07]).set 4 0x09) = (some [], []) :=
  corrupted_frame_dropped 0x01 0x02 [0x07] (mkFrame 0x01 0x02 [0x07]) 4 0x09
    (mkFrame 0x01 0x02 [0x07]) (by decide) (by decide) (by decide) (by decide)
    (by decide)

end SmartClock
